import Mathlib

/-!
Verification of the credential encoder of the `wifi-qr-code` crate
(`src/src/lib.rs`). Rust strings are modelled as `List Char`; the five
replacement patterns used by the crate are all single characters, so
`str::replace` is modelled exactly by a left-to-right single-character
substitution.
-/

set_option autoImplicit false

namespace WifiQr

/-- Model of Rust `str::replace` for a single-character pattern: every
occurrence of `pat` is replaced by the string `rep`, scanning left to right,
and replacement text is never rescanned. All five patterns used by `escape`
in `src/src/lib.rs` are single characters, so this captures the calls to
`String::replace` there exactly. -/
def replace (pat : Char) (rep : List Char) : List Char → List Char
  | [] => []
  | c :: cs => (if c = pat then rep else [c]) ++ replace pat rep cs

/-- `escape` from `src/src/lib.rs` lines 200-207: five sequential
whole-string replacements, applied innermost-first in the source order
backslash, double-quote, semicolon, comma, colon, each prefixing a
backslash to the matched character. -/
def escape (input : List Char) : List Char :=
  replace ':' ['\\', ':']
    (replace ',' ['\\', ',']
      (replace ';' ['\\', ';']
        (replace '"' ['\\', '"']
          (replace '\\' ['\\', '\\'] input))))

/-- `AuthenticationType` from `src/src/lib.rs` lines 125-132. -/
inductive AuthenticationType where
  | WEP (password : List Char)
  | WPA (password : List Char)
  | NoPassword

/-- `AuthenticationType::encode` from `src/src/lib.rs` lines 135-141:
`format!("T:WEP;P:{};", escape(password))`, `format!("T:WPA;P:{};", ...)`,
or the fixed string `"T:nopass;"`. -/
def AuthenticationType.encode : AuthenticationType → List Char
  | .WEP password => ['T', ':', 'W', 'E', 'P', ';', 'P', ':'] ++ escape password ++ [';']
  | .WPA password => ['T', ':', 'W', 'P', 'A', ';', 'P', ':'] ++ escape password ++ [';']
  | .NoPassword => ['T', ':', 'n', 'o', 'p', 'a', 's', 's', ';']

/-- `Visibility` from `src/src/lib.rs` lines 145-150. -/
inductive Visibility where
  | Visible
  | Hidden

/-- `Visibility::encode` from `src/src/lib.rs` lines 152-159: the fixed
strings `"H:false;"` and `"H:true;"`. -/
def Visibility.encode : Visibility → List Char
  | .Visible => ['H', ':', 'f', 'a', 'l', 's', 'e', ';']
  | .Hidden => ['H', ':', 't', 'r', 'u', 'e', ';']

/-- `WifiCredentials` from `src/src/lib.rs` lines 162-169. -/
structure WifiCredentials where
  ssid : List Char
  authentication_type : AuthenticationType
  visibility : Visibility

/-- `WifiCredentials::encode_ssid` from `src/src/lib.rs` lines 195-197:
`format!("S:{};", escape(&self.ssid))`. -/
def WifiCredentials.encode_ssid (self : WifiCredentials) : List Char :=
  ['S', ':'] ++ escape self.ssid ++ [';']

/-- `WifiCredentials::encode` from `src/src/lib.rs` lines 186-193:
`format!("WIFI:{}{}{};", self.encode_ssid(), self.authentication_type.encode(), self.visibility.encode())`. -/
def WifiCredentials.encode (self : WifiCredentials) : List Char :=
  ['W', 'I', 'F', 'I', ':'] ++ self.encode_ssid ++ self.authentication_type.encode
    ++ self.visibility.encode ++ [';']

/-- `encode_as_png` from `src/src/lib.rs` lines 78-90. The external
collaborator `qrcode_generator::to_png_to_writer` is passed in as an
abstract function of the encoded text, the error-correction level, the
image size and the writer. -/
def encode_as_png {Ecc W R : Type} (to_png_to_writer : List Char → Ecc → Nat → W → R)
    (wifi_credentials : WifiCredentials) (qr_code_error_checking : Ecc)
    (image_size : Nat) (writer : W) : R :=
  to_png_to_writer wifi_credentials.encode qr_code_error_checking image_size writer

/-- `encode_as_svg` from `src/src/lib.rs` lines 110-122. The source calls
`qrcode_generator::to_png_to_writer`, the same collaborator entry point as
`encode_as_png`, so the same abstract function is the parameter here. -/
def encode_as_svg {Ecc W R : Type} (to_png_to_writer : List Char → Ecc → Nat → W → R)
    (wifi_credentials : WifiCredentials) (qr_code_error_checking : Ecc)
    (image_size : Nat) (writer : W) : R :=
  to_png_to_writer wifi_credentials.encode qr_code_error_checking image_size writer

/-- The five reserved characters of the wifi-QR grammar, per the spec:
backslash, double-quote, semicolon, comma, colon. -/
def isReserved (c : Char) : Bool :=
  c = '\\' || c = '"' || c = ';' || c = ',' || c = ':'

/-- Modelled from the spec: the single conceptual left-to-right pass that
prefixes one backslash to each occurrence of a reserved character and
leaves every other character unchanged. -/
def escapeSpec : List Char → List Char
  | [] => []
  | c :: cs => if isReserved c then '\\' :: c :: escapeSpec cs else c :: escapeSpec cs

/-- Generalisation of `escapeSpec` to an arbitrary set `E` of characters
that carry a backslash in front of them; used to track which characters
are still escaped after each unescaping step. -/
def escSet (E : Char → Bool) : List Char → List Char
  | [] => []
  | c :: cs => (if E c then ['\\', c] else [c]) ++ escSet E cs

/-- Model of Rust `str::replace` for a two-character pattern `p q`:
leftmost matches are replaced by `rep`, non-overlapping, and replacement
text is never rescanned. Used for the five inverse substitutions of the
spec's round-trip law. -/
def replace2 (p q : Char) (rep : List Char) : List Char → List Char
  | [] => []
  | [a] => [a]
  | a :: b :: cs =>
    if a = p ∧ b = q then rep ++ replace2 p q rep cs
    else a :: replace2 p q rep (b :: cs)

/-- Modelled from the spec: the five-step unescape, applying the inverse
substitutions in the listed order backslash, double-quote, semicolon,
comma, colon, each dropping the escaping backslash. -/
def unescape (s : List Char) : List Char :=
  replace2 '\\' ':' [':']
    (replace2 '\\' ',' [',']
      (replace2 '\\' ';' [';']
        (replace2 '\\' '"' ['"']
          (replace2 '\\' '\\' ['\\'] s))))

/-- Characters still carrying an escaping backslash after undoing `\\`. -/
def E1 (c : Char) : Bool := isReserved c && !(c = '\\')

/-- Characters still escaped after also undoing `\"`. -/
def E2 (c : Char) : Bool := E1 c && !(c = '"')

/-- Characters still escaped after also undoing `\;`. -/
def E3 (c : Char) : Bool := E2 c && !(c = ';')

/-- Characters still escaped after also undoing `\,`. -/
def E4 (c : Char) : Bool := E3 c && !(c = ',')

/-- Characters still escaped after also undoing `\:`. -/
def E5 (c : Char) : Bool := E4 c && !(c = ':')

lemma replace_append (pat : Char) (rep : List Char) (xs ys : List Char) :
    replace pat rep (xs ++ ys) = replace pat rep xs ++ replace pat rep ys := by
  induction xs with
  | nil => rfl
  | cons c cs ih => simp [replace, ih]

lemma escape_append (xs ys : List Char) :
    escape (xs ++ ys) = escape xs ++ escape ys := by
  simp [escape, replace_append]

lemma escape_single (c : Char) :
    escape [c] = if isReserved c then ['\\', c] else [c] := by
  by_cases h1 : c = '\\'
  · subst h1; decide
  by_cases h2 : c = '"'
  · subst h2; decide
  by_cases h3 : c = ';'
  · subst h3; decide
  by_cases h4 : c = ','
  · subst h4; decide
  by_cases h5 : c = ':'
  · subst h5; decide
  simp [escape, replace, isReserved, h1, h2, h3, h4, h5]

lemma escape_eq_escSet (t : List Char) : escape t = escSet isReserved t := by
  induction t with
  | nil => rfl
  | cons c cs ih =>
    have : c :: cs = [c] ++ cs := rfl
    rw [this, escape_append, escape_single]
    simp only [escSet, ih]
    split <;> simp

lemma escapeSpec_eq_escSet (t : List Char) : escapeSpec t = escSet isReserved t := by
  induction t with
  | nil => rfl
  | cons c cs ih =>
    simp only [escapeSpec, escSet, ih]
    split <;> simp

lemma replace2_cons_ne (p q : Char) (rep : List Char) (a : Char) (s : List Char)
    (h : ¬ a = p) : replace2 p q rep (a :: s) = a :: replace2 p q rep s := by
  cases s with
  | nil => rfl
  | cons b cs => simp [replace2, h]

lemma replace2_bslash_escSet (E : Char → Bool) (hE : E '\\' = true) (t : List Char) :
    replace2 '\\' '\\' ['\\'] (escSet E t)
      = escSet (fun c => E c && !(c = '\\')) t := by
  induction t with
  | nil => rfl
  | cons c cs ih =>
    by_cases hc : c = '\\'
    · subst hc
      have h2 : replace2 '\\' '\\' ['\\'] ('\\' :: '\\' :: escSet E cs)
          = '\\' :: replace2 '\\' '\\' ['\\'] (escSet E cs) := by
        simp [replace2]
      simp [escSet, hE, h2, ih]
    · by_cases hEc : E c = true
      · have h2 : replace2 '\\' '\\' ['\\'] ('\\' :: c :: escSet E cs)
            = '\\' :: c :: replace2 '\\' '\\' ['\\'] (escSet E cs) := by
          simp [replace2, hc, replace2_cons_ne _ _ _ _ _ hc]
        simp [escSet, hEc, hc, h2, ih]
      · have hcF : E c = false := by simpa using hEc
        have h2 := replace2_cons_ne '\\' '\\' ['\\'] c (escSet E cs) hc
        simp [escSet, hcF, h2, ih]

lemma replace2_step_escSet (x : Char) (hx : ¬ x = '\\') (E : Char → Bool)
    (hEb : E '\\' = false) (hEx : E x = true) (t : List Char) :
    replace2 '\\' x [x] (escSet E t) = escSet (fun c => E c && !(c = x)) t := by
  induction t with
  | nil => rfl
  | cons c cs ih =>
    by_cases hEc : E c = true
    · have hcb : ¬ c = '\\' := by intro h; rw [h, hEb] at hEc; cases hEc
      by_cases hcx : c = x
      · subst hcx
        have h2 : replace2 '\\' c [c] ('\\' :: c :: escSet E cs)
            = c :: replace2 '\\' c [c] (escSet E cs) := by simp [replace2]
        simp [escSet, hEc, h2, ih]
      · have h2 : replace2 '\\' x [x] ('\\' :: c :: escSet E cs)
            = '\\' :: c :: replace2 '\\' x [x] (escSet E cs) := by
          simp [replace2, hcx, replace2_cons_ne _ _ _ _ _ hcb]
        simp [escSet, hEc, hcx, h2, ih]
    · have hcF : E c = false := by simpa using hEc
      have hcx : ¬ c = x := by intro h; rw [h, hEx] at hcF; cases hcF
      by_cases hcb : c = '\\'
      · subst hcb
        cases cs with
        | nil => simp [escSet, hEb, replace2]
        | cons d ds =>
          have hbx : ¬ ('\\' : Char) = x := fun h => hx h.symm
          by_cases hEd : E d = true
          · have h2 : replace2 '\\' x [x] ('\\' :: '\\' :: d :: escSet E ds)
                = '\\' :: replace2 '\\' x [x] ('\\' :: d :: escSet E ds) := by
              simp [replace2, hbx]
            have h3 : escSet E (d :: ds) = '\\' :: d :: escSet E ds := by
              simp [escSet, hEd]
            calc replace2 '\\' x [x] (escSet E ('\\' :: d :: ds))
                = replace2 '\\' x [x] ('\\' :: '\\' :: d :: escSet E ds) := by
                  simp [escSet, hEb, hEd]
              _ = '\\' :: replace2 '\\' x [x] ('\\' :: d :: escSet E ds) := h2
              _ = '\\' :: replace2 '\\' x [x] (escSet E (d :: ds)) := by rw [h3]
              _ = '\\' :: escSet (fun c => E c && !(c = x)) (d :: ds) := by rw [ih]
              _ = escSet (fun c => E c && !(c = x)) ('\\' :: d :: ds) := by
                  simp [escSet, hEb]
          · have hdF : E d = false := by simpa using hEd
            have hdx : ¬ d = x := by intro h; rw [h, hEx] at hdF; cases hdF
            have h2 : replace2 '\\' x [x] ('\\' :: d :: escSet E ds)
                = '\\' :: replace2 '\\' x [x] (d :: escSet E ds) := by
              simp [replace2, hdx]
            have h3 : escSet E (d :: ds) = d :: escSet E ds := by
              simp [escSet, hdF]
            calc replace2 '\\' x [x] (escSet E ('\\' :: d :: ds))
                = replace2 '\\' x [x] ('\\' :: d :: escSet E ds) := by
                  simp [escSet, hEb, hdF]
              _ = '\\' :: replace2 '\\' x [x] (d :: escSet E ds) := h2
              _ = '\\' :: replace2 '\\' x [x] (escSet E (d :: ds)) := by rw [← h3]
              _ = '\\' :: escSet (fun c => E c && !(c = x)) (d :: ds) := by rw [ih]
              _ = escSet (fun c => E c && !(c = x)) ('\\' :: d :: ds) := by
                  simp [escSet, hEb]
      · have h2 := replace2_cons_ne '\\' x [x] c (escSet E cs) hcb
        simp [escSet, hcF, h2, ih]

lemma escSet_id (E : Char → Bool) (t : List Char) (h : ∀ c ∈ t, E c = false) :
    escSet E t = t := by
  induction t with
  | nil => rfl
  | cons c cs ih =>
    simp [escSet, h c (List.mem_cons_self c cs),
      ih (fun d hd => h d (List.mem_cons_of_mem c hd))]

lemma step1 (t : List Char) :
    replace2 '\\' '\\' ['\\'] (escSet isReserved t) = escSet E1 t :=
  replace2_bslash_escSet isReserved (by decide) t

lemma step2 (t : List Char) :
    replace2 '\\' '"' ['"'] (escSet E1 t) = escSet E2 t :=
  replace2_step_escSet '"' (by decide) E1 (by decide) (by decide) t

lemma step3 (t : List Char) :
    replace2 '\\' ';' [';'] (escSet E2 t) = escSet E3 t :=
  replace2_step_escSet ';' (by decide) E2 (by decide) (by decide) t

lemma step4 (t : List Char) :
    replace2 '\\' ',' [','] (escSet E3 t) = escSet E4 t :=
  replace2_step_escSet ',' (by decide) E3 (by decide) (by decide) t

lemma step5 (t : List Char) :
    replace2 '\\' ':' [':'] (escSet E4 t) = escSet E5 t :=
  replace2_step_escSet ':' (by decide) E4 (by decide) (by decide) t

lemma E5_false (c : Char) : E5 c = false := by
  by_cases h1 : c = '\\' <;> by_cases h2 : c = '"' <;> by_cases h3 : c = ';'
    <;> by_cases h4 : c = ',' <;> by_cases h5 : c = ':'
    <;> simp [E5, E4, E3, E2, E1, isReserved, h1, h2, h3, h4, h5]

lemma length_escSet (E : Char → Bool) (t : List Char) :
    (escSet E t).length = t.length + t.countP E := by
  induction t with
  | nil => rfl
  | cons c cs ih =>
    by_cases h : E c = true <;> simp [escSet, h, List.countP_cons, ih] <;> omega

lemma countP_reserved_escape (t : List Char) :
    (escSet isReserved t).countP isReserved = 2 * t.countP isReserved := by
  induction t with
  | nil => rfl
  | cons c cs ih =>
    by_cases h : isReserved c = true
    · have hb : isReserved '\\' = true := by decide
      simp [escSet, h, hb, List.countP_cons, List.countP_append, ih]
      omega
    · simp [escSet, h, List.countP_cons, ih]

lemma escSet_semi_inj (s1 : List Char) : ∀ s2 a b : List Char,
    escSet isReserved s1 ++ ';' :: a = escSet isReserved s2 ++ ';' :: b →
    s1 = s2 ∧ a = b := by
  induction s1 with
  | nil =>
    intro s2 a b h
    cases s2 with
    | nil =>
      simp only [escSet, List.nil_append] at h
      injection h with _ h2
      exact ⟨rfl, h2⟩
    | cons d s2' =>
      exfalso
      by_cases hd : isReserved d = true
      · rw [show escSet isReserved (d :: s2') = '\\' :: d :: escSet isReserved s2'
            from by simp [escSet, hd]] at h
        simp only [escSet, List.nil_append, List.cons_append] at h
        injection h with h1 _
        exact absurd h1 (by decide)
      · rw [show escSet isReserved (d :: s2') = d :: escSet isReserved s2'
            from by simp [escSet, hd]] at h
        simp only [escSet, List.nil_append, List.cons_append] at h
        injection h with h1 _
        rw [← h1] at hd
        exact hd (by decide)
  | cons c s1' ih =>
    intro s2 a b h
    cases s2 with
    | nil =>
      exfalso
      by_cases hc : isReserved c = true
      · rw [show escSet isReserved (c :: s1') = '\\' :: c :: escSet isReserved s1'
            from by simp [escSet, hc]] at h
        simp only [escSet, List.nil_append, List.cons_append] at h
        injection h with h1 _
        exact absurd h1 (by decide)
      · rw [show escSet isReserved (c :: s1') = c :: escSet isReserved s1'
            from by simp [escSet, hc]] at h
        simp only [escSet, List.nil_append, List.cons_append] at h
        injection h with h1 _
        rw [h1] at hc
        exact hc (by decide)
    | cons d s2' =>
      by_cases hc : isReserved c = true <;> by_cases hd : isReserved d = true
      · rw [show escSet isReserved (c :: s1') = '\\' :: c :: escSet isReserved s1'
            from by simp [escSet, hc],
          show escSet isReserved (d :: s2') = '\\' :: d :: escSet isReserved s2'
            from by simp [escSet, hd]] at h
        simp only [List.cons_append] at h
        injection h with _ h2
        injection h2 with h3 h4
        obtain ⟨hs, hab⟩ := ih s2' a b h4
        exact ⟨by rw [h3, hs], hab⟩
      · exfalso
        rw [show escSet isReserved (c :: s1') = '\\' :: c :: escSet isReserved s1'
            from by simp [escSet, hc],
          show escSet isReserved (d :: s2') = d :: escSet isReserved s2'
            from by simp [escSet, hd]] at h
        simp only [List.cons_append] at h
        injection h with h1 _
        rw [← h1] at hd
        exact hd (by decide)
      · exfalso
        rw [show escSet isReserved (c :: s1') = c :: escSet isReserved s1'
            from by simp [escSet, hc],
          show escSet isReserved (d :: s2') = '\\' :: d :: escSet isReserved s2'
            from by simp [escSet, hd]] at h
        simp only [List.cons_append] at h
        injection h with h1 _
        rw [h1] at hc
        exact hc (by decide)
      · rw [show escSet isReserved (c :: s1') = c :: escSet isReserved s1'
            from by simp [escSet, hc],
          show escSet isReserved (d :: s2') = d :: escSet isReserved s2'
            from by simp [escSet, hd]] at h
        simp only [List.cons_append] at h
        injection h with h1 h2
        obtain ⟨hs, hab⟩ := ih s2' a b h2
        exact ⟨by rw [h1, hs], hab⟩

lemma vis_encode_append_inj (v1 v2 : Visibility)
    (h : v1.encode ++ [';'] = v2.encode ++ [';']) : v1 = v2 := by
  cases v1 <;> cases v2 <;> first
    | rfl
    | (exfalso
       simp [Visibility.encode, show ('f' : Char) ≠ 't' from by decide,
         show ('t' : Char) ≠ 'f' from by decide] at h)

lemma auth_encode_append_inj (a1 a2 : AuthenticationType) (r1 r2 : List Char)
    (h : a1.encode ++ r1 = a2.encode ++ r2) : a1 = a2 ∧ r1 = r2 := by
  cases a1 with
  | WEP p1 =>
    cases a2 with
    | WEP p2 =>
      simp only [AuthenticationType.encode, List.append_assoc, List.cons_append,
        List.nil_append, List.cons.injEq, true_and] at h
      rw [escape_eq_escSet, escape_eq_escSet] at h
      obtain ⟨hp, hr⟩ := escSet_semi_inj p1 p2 r1 r2 h
      exact ⟨by rw [hp], hr⟩
    | WPA p2 =>
      exfalso
      simp [AuthenticationType.encode,
        show ('E' : Char) ≠ 'P' from by decide] at h
    | NoPassword =>
      exfalso
      simp [AuthenticationType.encode,
        show ('W' : Char) ≠ 'n' from by decide] at h
  | WPA p1 =>
    cases a2 with
    | WEP p2 =>
      exfalso
      simp [AuthenticationType.encode,
        show ('P' : Char) ≠ 'E' from by decide] at h
    | WPA p2 =>
      simp only [AuthenticationType.encode, List.append_assoc, List.cons_append,
        List.nil_append, List.cons.injEq, true_and] at h
      rw [escape_eq_escSet, escape_eq_escSet] at h
      obtain ⟨hp, hr⟩ := escSet_semi_inj p1 p2 r1 r2 h
      exact ⟨by rw [hp], hr⟩
    | NoPassword =>
      exfalso
      simp [AuthenticationType.encode,
        show ('W' : Char) ≠ 'n' from by decide] at h
  | NoPassword =>
    cases a2 with
    | WEP p2 =>
      exfalso
      simp [AuthenticationType.encode,
        show ('n' : Char) ≠ 'W' from by decide] at h
    | WPA p2 =>
      exfalso
      simp [AuthenticationType.encode,
        show ('n' : Char) ≠ 'W' from by decide] at h
    | NoPassword =>
      simp only [AuthenticationType.encode, List.append_assoc, List.cons_append,
        List.nil_append, List.cons.injEq, true_and] at h
      exact ⟨rfl, h⟩

/-- C1: for every `WifiCredentials` value, `encode` returns exactly the
concatenation of `WIFI:`, `S:`, the escaped ssid, `;`, the authentication
segment (`T:WEP;P:` + escaped password + `;` for WEP, `T:WPA;P:` + escaped
password + `;` for WPA, and `T:nopass;` with no `P:` segment for
NoPassword) and the visibility segment (`H:true;` for Hidden, `H:false;`
for Visible), followed by the final `;`. -/
theorem encode_concatenation (c : WifiCredentials) :
    c.encode
      = ['W', 'I', 'F', 'I', ':'] ++ ['S', ':'] ++ escape c.ssid ++ [';']
        ++ (match c.authentication_type with
            | AuthenticationType.WEP p =>
                ['T', ':', 'W', 'E', 'P', ';', 'P', ':'] ++ escape p ++ [';']
            | AuthenticationType.WPA p =>
                ['T', ':', 'W', 'P', 'A', ';', 'P', ':'] ++ escape p ++ [';']
            | AuthenticationType.NoPassword =>
                ['T', ':', 'n', 'o', 'p', 'a', 's', 's', ';'])
        ++ (match c.visibility with
            | Visibility.Hidden => ['H', ':', 't', 'r', 'u', 'e', ';']
            | Visibility.Visible => ['H', ':', 'f', 'a', 'l', 's', 'e', ';'])
        ++ [';'] := by
  obtain ⟨s, a, v⟩ := c
  cases a <;> cases v <;>
    simp [WifiCredentials.encode, WifiCredentials.encode_ssid,
      AuthenticationType.encode, Visibility.encode]

/-- C2: applying the five-step unescape (the inverse substitutions, in the
order backslash, double-quote, semicolon, comma, colon) to `escape t`
recovers `t` exactly, for every text `t`; hence the escaped `S:` and `P:`
payloads of the encoded output decode back to the original ssid and
password (round-trip law). -/
theorem unescape_escape_roundtrip (t : List Char) : unescape (escape t) = t := by
  rw [escape_eq_escSet]
  simp only [unescape]
  rw [step1, step2, step3, step4, step5]
  exact escSet_id E5 t (fun c _ => E5_false c)

/-- C3: `escape`, the five sequential whole-string replacements in the
fixed source order, is extensionally equal to the single left-to-right
pass `escapeSpec` that prefixes one backslash to each occurrence of a
reserved character and leaves every other character unchanged; in
particular no backslash introduced for the later four characters is
re-escaped. -/
theorem escape_eq_single_pass (t : List Char) : escape t = escapeSpec t := by
  rw [escape_eq_escSet, escapeSpec_eq_escSet]

/-- C4: `encode` on the special-characters test vector of
`src/src/lib.rs` (ssid and WEP password both `special_characters ";,:\`,
visibility Visible) returns exactly the expected escaped payload. -/
theorem encode_special_characters_vector :
    (WifiCredentials.mk ("special_characters \";,:\\".data)
        (AuthenticationType.WEP ("special_characters \";,:\\".data))
        Visibility.Visible).encode
      = "WIFI:S:special_characters \\\"\\;\\,\\:\\\\;T:WEP;P:special_characters \\\"\\;\\,\\:\\\\;H:false;;".data := by
  decide

/-- C5: `encode` is total and, for every ssid, every authentication
variant and both visibility variants, returns a non-empty string that
begins with `WIFI:` and ends with `;;`. -/
theorem encode_total_frame (c : WifiCredentials) :
    c.encode ≠ []
    ∧ (∃ r, c.encode = ['W', 'I', 'F', 'I', ':'] ++ r)
    ∧ (∃ l, c.encode = l ++ [';', ';']) := by
  obtain ⟨s, a, v⟩ := c
  refine ⟨?_, ?_, ?_⟩
  · simp [WifiCredentials.encode]
  · exact ⟨WifiCredentials.encode_ssid ⟨s, a, v⟩ ++ a.encode ++ v.encode ++ [';'],
      by simp [WifiCredentials.encode, List.append_assoc]⟩
  · cases v with
    | Visible =>
      exact ⟨['W', 'I', 'F', 'I', ':'] ++ WifiCredentials.encode_ssid ⟨s, a, .Visible⟩
          ++ a.encode ++ ['H', ':', 'f', 'a', 'l', 's', 'e'],
        by simp [WifiCredentials.encode, Visibility.encode, List.append_assoc]⟩
    | Hidden =>
      exact ⟨['W', 'I', 'F', 'I', ':'] ++ WifiCredentials.encode_ssid ⟨s, a, .Hidden⟩
          ++ a.encode ++ ['H', ':', 't', 'r', 'u', 'e'],
        by simp [WifiCredentials.encode, Visibility.encode, List.append_assoc]⟩

/-- C6: `escape` fixes exactly the texts free of the five reserved
characters, and is idempotent exactly on those texts: re-running it on any
text containing a reserved character double-escapes and changes the
result. -/
theorem escape_idempotent_iff_reserved_free (t : List Char) :
    (escape t = t ↔ ∀ c ∈ t, isReserved c = false)
    ∧ (escape (escape t) = escape t ↔ ∀ c ∈ t, isReserved c = false) := by
  have hlen : (escape t).length = t.length + t.countP isReserved := by
    rw [escape_eq_escSet]; exact length_escSet _ t
  have hcount : (escape t).countP isReserved = 2 * t.countP isReserved := by
    rw [escape_eq_escSet]; exact countP_reserved_escape t
  have hlen2 : (escape (escape t)).length
      = (escape t).length + 2 * t.countP isReserved := by
    rw [escape_eq_escSet (escape t), length_escSet, hcount]
  have hzero : t.countP isReserved = 0 ↔ ∀ c ∈ t, isReserved c = false := by
    rw [List.countP_eq_zero]
    simp
  have hfree_imp : (∀ c ∈ t, isReserved c = false) → escape t = t := by
    intro h
    rw [escape_eq_escSet]
    exact escSet_id _ t h
  refine ⟨⟨fun h => ?_, fun h => hfree_imp h⟩,
    ⟨fun h => ?_, fun h => by rw [hfree_imp h]; exact hfree_imp h⟩⟩
  · have hl := congrArg List.length h
    rw [hlen] at hl
    exact hzero.mp (by omega)
  · have hl := congrArg List.length h
    rw [hlen2] at hl
    exact hzero.mp (by omega)

/-- C7: `encode` agrees with the three plain test vectors of
`src/src/lib.rs`: WEP/Visible, WPA/Hidden and NoPassword/Visible on
`test ssid` / `test password`, the last with no `P:` segment. -/
theorem encode_plain_vectors :
    (WifiCredentials.mk ("test ssid".data)
        (AuthenticationType.WEP ("test password".data)) Visibility.Visible).encode
      = "WIFI:S:test ssid;T:WEP;P:test password;H:false;;".data
    ∧ (WifiCredentials.mk ("test ssid".data)
        (AuthenticationType.WPA ("test password".data)) Visibility.Hidden).encode
      = "WIFI:S:test ssid;T:WPA;P:test password;H:true;;".data
    ∧ (WifiCredentials.mk ("test ssid".data)
        AuthenticationType.NoPassword Visibility.Visible).encode
      = "WIFI:S:test ssid;T:nopass;H:false;;".data := by
  exact ⟨by decide, by decide, by decide⟩

/-- C8: `encode` succeeds on empty ssid and empty password, producing
well-formed output with empty `S:;` and `P:;` segments, for WEP, WPA and
NoPassword alike. -/
theorem encode_empty_segments :
    (WifiCredentials.mk [] (AuthenticationType.WEP []) Visibility.Visible).encode
      = "WIFI:S:;T:WEP;P:;H:false;;".data
    ∧ (WifiCredentials.mk [] (AuthenticationType.WPA []) Visibility.Visible).encode
      = "WIFI:S:;T:WPA;P:;H:false;;".data
    ∧ (WifiCredentials.mk [] AuthenticationType.NoPassword Visibility.Visible).encode
      = "WIFI:S:;T:nopass;H:false;;".data := by
  exact ⟨by decide, by decide, by decide⟩

/-- C9: `encode_as_svg` is extensionally the same operation as
`encode_as_png`: for every PNG-writing collaborator, credentials value,
error-correction level, image size and writer, both pass the encoded text
to the same PNG-writing entry point, so the SVG encoder writes PNG output. -/
theorem encode_as_svg_eq_encode_as_png {Ecc W R : Type}
    (to_png_to_writer : List Char → Ecc → Nat → W → R)
    (wifi_credentials : WifiCredentials) (qr_code_error_checking : Ecc)
    (image_size : Nat) (writer : W) :
    encode_as_svg to_png_to_writer wifi_credentials qr_code_error_checking
        image_size writer
      = encode_as_png to_png_to_writer wifi_credentials qr_code_error_checking
        image_size writer := rfl

/-- C10: `encode` is injective: credentials differing in ssid,
authentication variant, password or visibility encode to different
strings, so the original credentials are unambiguously recoverable from
the encoded payload. -/
theorem encode_injective (c1 c2 : WifiCredentials) (h : c1.encode = c2.encode) :
    c1 = c2 := by
  obtain ⟨s1, a1, v1⟩ := c1
  obtain ⟨s2, a2, v2⟩ := c2
  simp only [WifiCredentials.encode, WifiCredentials.encode_ssid, List.append_assoc,
    List.cons_append, List.nil_append, List.cons.injEq, true_and] at h
  rw [escape_eq_escSet, escape_eq_escSet] at h
  obtain ⟨hs, htail⟩ := escSet_semi_inj s1 s2 _ _ h
  obtain ⟨ha, hv⟩ := auth_encode_append_inj a1 a2 _ _ htail
  have hvv := vis_encode_append_inj v1 v2 hv
  rw [hs, ha, hvv]

/-- Witness for C10: the injectivity theorem applied at a concrete pair of
credentials whose encodings are computed and compared by `decide`. -/
theorem encode_injective_witness :
    WifiCredentials.mk ("a".data) AuthenticationType.NoPassword Visibility.Visible
      = WifiCredentials.mk ['a'] AuthenticationType.NoPassword Visibility.Visible :=
  encode_injective _ _ (by decide)

end WifiQr
